import Mathlib

/-!
Verification of the jsend library (Go package `jsend`): a shallow embedding
of `jsend.go` together with proofs about its claims.

The library wraps an HTTP response sink and re-serializes body writes into
the JSend envelope `\x7b"status": ..., "data": ..., "message": ...\x7d`.
The JSON codec (Go `encoding/json`) is an external trusted collaborator of
the library; it is modelled here by an explicit JSON value type, a
canonical compact serializer, and a syntactic validator mirroring the
validation that `json.Marshal` performs on a `json.RawMessage` field.
Modelling notes for the codec:
  * the serializer emits compact JSON (no insignificant whitespace), which
    is what `json.Marshal` produces; embedding of an already-encoded
    `json.RawMessage` into the envelope is modelled verbatim (Go compacts
    it, which is the identity on compact input, and HTML-escaping inside
    raw data is a codec internal not modelled);
  * string escaping is modelled for the quote and backslash characters
    (the further escapes `encoding/json` applies, to control characters
    and HTML-significant characters, are codec internals not modelled);
  * the validator accepts the JSON grammar: whitespace, `null`, `true`,
    `false`, numbers (optional minus, digits, optional fraction and
    exponent), strings with backslash escapes, arrays and objects.  It is
    written with a fuel parameter for termination; the fuel supplied,
    `2 * length + 2`, dominates the depth of the recursion (every two
    nested calls consume at least one input character).
-/

namespace Jsend

/-! ### JSON values and the canonical serializer (model of the codec) -/

mutual

/-- A JSON value: the payload domain of the trusted external codec. -/
inductive Jval where
  | null : Jval
  | bool : Bool → Jval
  | num : Int → Jval
  | str : String → Jval
  | arr : JvalList → Jval
  | obj : JvalObj → Jval

/-- A list of JSON values (array elements). -/
inductive JvalList where
  | nil : JvalList
  | cons : Jval → JvalList → JvalList

/-- A list of key/value members of a JSON object. -/
inductive JvalObj where
  | onil : JvalObj
  | ocons : String → Jval → JvalObj → JvalObj

end

/-- The decimal digit character for `d` (callers only pass `d < 10`). -/
def digitChar : Nat → Char
  | 0 => '0'
  | 1 => '1'
  | 2 => '2'
  | 3 => '3'
  | 4 => '4'
  | 5 => '5'
  | 6 => '6'
  | 7 => '7'
  | 8 => '8'
  | _ => '9'

/-- Decimal digits of a natural number, most significant first; the fuel
argument (any bound above the number of digits) only drives termination. -/
def natCharsAux : Nat → Nat → List Char
  | 0, _ => []
  | f + 1, n =>
    if n < 10 then [digitChar n]
    else natCharsAux f (n / 10) ++ [digitChar (n % 10)]

/-- Decimal digits of a natural number, most significant first. -/
def natChars (n : Nat) : List Char :=
  natCharsAux (n + 1) n

/-- Decimal representation of an integer as characters. -/
def intChars (n : Int) : List Char :=
  if n < 0 then '-' :: natChars n.natAbs else natChars n.natAbs

/-- JSON string-content escaping: quote and backslash get a backslash. -/
def escChars : List Char → List Char
  | [] => []
  | c :: cs => if c = '"' ∨ c = '\\' then '\\' :: c :: escChars cs else c :: escChars cs

/-- A JSON string literal: quoted, escaped content. -/
def encodeJString (s : String) : List Char :=
  '"' :: escChars s.data ++ ['"']

mutual

/-- Canonical compact serialization of a JSON value (model of `json.Marshal`
on a payload value). -/
def serChars : Jval → List Char
  | .null => ['n', 'u', 'l', 'l']
  | .bool b => if b then ['t', 'r', 'u', 'e'] else ['f', 'a', 'l', 's', 'e']
  | .num n => intChars n
  | .str s => encodeJString s
  | .arr xs => '[' :: serList xs ++ [']']
  | .obj xs => '\x7b' :: serObj xs ++ ['\x7d']

/-- Serialization of array elements (no brackets). -/
def serList : JvalList → List Char
  | .nil => []
  | .cons v vs => serChars v ++ serListRest vs

/-- Serialization of array elements after the first: comma-separated. -/
def serListRest : JvalList → List Char
  | .nil => []
  | .cons v vs => ',' :: serChars v ++ serListRest vs

/-- Serialization of object members (no braces). -/
def serObj : JvalObj → List Char
  | .onil => []
  | .ocons k v vs => encodeJString k ++ ':' :: serChars v ++ serObjRest vs

/-- Serialization of object members after the first: comma-separated. -/
def serObjRest : JvalObj → List Char
  | .onil => []
  | .ocons k v vs => ',' :: encodeJString k ++ ':' :: serChars v ++ serObjRest vs

end

/-- Serialize a JSON value to a string. -/
def Jval.serialize (v : Jval) : String :=
  String.mk (serChars v)

/-! ### Syntactic JSON validator (model of the validity check `json.Marshal`
performs when embedding a `json.RawMessage`) -/

/-- JSON whitespace characters. -/
def isWS (c : Char) : Bool :=
  c = ' ' || c = '\t' || c = '\n' || c = '\r'

/-- Drop leading JSON whitespace. -/
def skipWS : List Char → List Char
  | [] => []
  | c :: cs => if isWS c then skipWS cs else c :: cs

/-- Decimal digit test. -/
def isDig (c : Char) : Bool :=
  c = '0' || c = '1' || c = '2' || c = '3' || c = '4' ||
  c = '5' || c = '6' || c = '7' || c = '8' || c = '9'

mutual

/-- Scan a JSON string body after the opening quote, up to and including the
closing quote. -/
def skipStringBody : List Char → Option (List Char)
  | [] => none
  | c :: cs =>
    if c = '"' then some cs
    else if c = '\\' then skipEscaped cs
    else skipStringBody cs

/-- Scan the character following a backslash inside a string body. -/
def skipEscaped : List Char → Option (List Char)
  | [] => none
  | _ :: cs2 => skipStringBody cs2

end

/-- Consume zero or more digits. -/
def skipDigits : List Char → List Char
  | [] => []
  | c :: cs => if isDig c then skipDigits cs else c :: cs

/-- Consume one or more digits. -/
def requireDigits : List Char → Option (List Char)
  | [] => none
  | c :: cs => if isDig c then some (skipDigits cs) else none

/-- Consume an optional fraction part `.digits`. -/
def skipFrac : List Char → Option (List Char)
  | [] => some []
  | c :: cs => if c = '.' then requireDigits cs else some (c :: cs)

/-- Consume an exponent's sign and digits after `e`/`E`. -/
def expPart : List Char → Option (List Char)
  | [] => none
  | c :: cs2 =>
    if c = '+' ∨ c = '-' then requireDigits cs2 else requireDigits (c :: cs2)

/-- Consume an optional exponent part `(e|E)(+|-)?digits`. -/
def skipExp : List Char → Option (List Char)
  | [] => some []
  | c :: cs => if c = 'e' ∨ c = 'E' then expPart cs else some (c :: cs)

/-- Consume the digits, fraction and exponent of a number. -/
def numTail (cs : List Char) : Option (List Char) :=
  match requireDigits cs with
  | none => none
  | some r1 =>
    match skipFrac r1 with
    | none => none
    | some r2 => skipExp r2

/-- Consume a JSON number (optional leading minus). -/
def skipNumber : List Char → Option (List Char)
  | [] => none
  | c :: cs => if c = '-' then numTail cs else numTail (c :: cs)

/-- Match an expected literal tail (used for `null`, `true`, `false`). -/
def expectChars : List Char → List Char → Option (List Char)
  | [], cs => some cs
  | _ :: _, [] => none
  | l :: ls, c :: cs => if c = l then expectChars ls cs else none

mutual

/-- Consume one JSON value (with leading whitespace); `none` when the input
is not syntactically valid.  The fuel argument only bounds recursion depth. -/
def skipValue : Nat → List Char → Option (List Char)
  | 0, _ => none
  | f + 1, cs =>
    match skipWS cs with
    | [] => none
    | c :: r =>
      if c = '"' then skipStringBody r
      else if c = '[' then skipArrayBody f r
      else if c = '\x7b' then skipObjectBody f r
      else if c = 'n' then expectChars ['u', 'l', 'l'] r
      else if c = 't' then expectChars ['r', 'u', 'e'] r
      else if c = 'f' then expectChars ['a', 'l', 's', 'e'] r
      else skipNumber (c :: r)

/-- Consume the inside of an array after `[`. -/
def skipArrayBody : Nat → List Char → Option (List Char)
  | 0, _ => none
  | f + 1, cs =>
    match skipWS cs with
    | [] => none
    | c :: r =>
      if c = ']' then some r
      else
        match skipValue f (c :: r) with
        | none => none
        | some r2 => skipArrayRest f r2

/-- Consume the rest of an array after an element: `]` or `, value ...`. -/
def skipArrayRest : Nat → List Char → Option (List Char)
  | 0, _ => none
  | f + 1, cs =>
    match skipWS cs with
    | [] => none
    | c :: r =>
      if c = ']' then some r
      else if c = ',' then
        match skipValue f r with
        | none => none
        | some r2 => skipArrayRest f r2
      else none

/-- Consume the inside of an object after the opening brace. -/
def skipObjectBody : Nat → List Char → Option (List Char)
  | 0, _ => none
  | f + 1, cs =>
    match skipWS cs with
    | [] => none
    | c :: r =>
      if c = '\x7d' then some r
      else if c = '"' then
        match skipStringBody r with
        | none => none
        | some r2 => skipMember f r2
      else none

/-- Consume `: value` after an object key, then the rest of the object. -/
def skipMember : Nat → List Char → Option (List Char)
  | 0, _ => none
  | f + 1, cs =>
    match skipWS cs with
    | [] => none
    | c :: r =>
      if c = ':' then
        match skipValue f r with
        | none => none
        | some r2 => skipObjectRest f r2
      else none

/-- Consume the rest of an object after a member: closing brace or
`, "key" : value ...`. -/
def skipObjectRest : Nat → List Char → Option (List Char)
  | 0, _ => none
  | f + 1, cs =>
    match skipWS cs with
    | [] => none
    | c :: r =>
      if c = '\x7d' then some r
      else if c = ',' then
        match skipWS r with
        | [] => none
        | c2 :: r2 =>
          if c2 = '"' then
            match skipStringBody r2 with
            | none => none
            | some r3 => skipMember f r3
          else none
      else none

end

/-- Syntactic JSON validity of a byte string: exactly one JSON value,
surrounded by optional whitespace.  Models the check `json.Marshal` applies
to a `json.RawMessage` before embedding it. -/
def isValidJSON (s : String) : Bool :=
  match skipValue (2 * s.length + 2) s.data with
  | none => false
  | some r => (skipWS r).isEmpty

/-- Whether the first character cannot extend a preceding number token
(used to state that the validator stops at a value boundary). -/
def numDelim : List Char → Bool
  | [] => true
  | c :: _ => !(isDig c || c = '.' || c = 'e' || c = 'E')

mutual

/-- Recursion depth the validator needs on the serialization of a value. -/
def jsize : Jval → Nat
  | .null => 1
  | .bool _ => 1
  | .num _ => 1
  | .str _ => 1
  | .arr xs => 2 + lsize xs
  | .obj xs => 2 + osize xs

/-- Recursion depth needed inside a serialized array. -/
def lsize : JvalList → Nat
  | .nil => 0
  | .cons v vs => jsize v + 1 + lsize vs

/-- Recursion depth needed inside a serialized object. -/
def osize : JvalObj → Nat
  | .onil => 0
  | .ocons _ v vs => jsize v + 2 + osize vs

end

/-! ### The response sink (model of `http.ResponseWriter`)

The sink records the observable effect of the three capabilities the
library uses: the mutable header collection, the status-code setter, and
the body-writing operation.  Body writes are recorded as a list of chunks
and always succeed, returning the byte length written (as Go's
`httptest.ResponseRecorder` does); sink-side I/O failures are an external
concern the library merely forwards. -/

/-- Look up a header value; `""` when the key is absent (Go
`Header.Get`). -/
def headerGet (h : List (String × String)) (k : String) : String :=
  match h.find? (fun p => p.fst == k) with
  | some p => p.snd
  | none => ""

/-- Set a header key to a single value (Go `Header.Set`). -/
def headerSet (h : List (String × String)) (k v : String) : List (String × String) :=
  (k, v) :: h.filter (fun p => p.fst != k)

/-- State of an HTTP response sink. -/
structure ResponseWriter where
  header : List (String × String)
  codes : List Int
  body : List String
deriving DecidableEq

/-- Header lookup on a sink. -/
def ResponseWriter.hget (w : ResponseWriter) (k : String) : String :=
  headerGet w.header k

/-- Header update on a sink. -/
def ResponseWriter.hset (w : ResponseWriter) (k v : String) : ResponseWriter :=
  { w with header := headerSet w.header k v }

/-- Record a status code on the sink (Go `WriteHeader`). -/
def ResponseWriter.writeHeader (w : ResponseWriter) (c : Int) : ResponseWriter :=
  { w with codes := w.codes ++ [c] }

/-- Append a body chunk to the sink; returns the new sink and the number of
bytes written. -/
def ResponseWriter.write (w : ResponseWriter) (s : String) : ResponseWriter × Nat :=
  ({ w with body := w.body ++ [s] }, s.utf8ByteSize)

/-- A sink in its initial state. -/
def emptyRW : ResponseWriter :=
  { header := [], codes := [], body := [] }

/-! ### The jsend package: constants, errors, envelope -/

/-- JSend status tag `"success"`. -/
def StatusSuccess : String := "success"

/-- JSend status tag `"error"`. -/
def StatusError : String := "error"

/-- JSend status tag `"fail"`. -/
def StatusFail : String := "fail"

/-- The error values the package returns. -/
inductive JsendErr where
  | invalidRawJSON : JsendErr
  | jsonEncode : JsendErr
  | writtenAlready : JsendErr
deriving DecidableEq

/-- `ErrInvalidRawJSON`: given data is not a valid `json.RawMessage`. -/
def ErrInvalidRawJSON : JsendErr := JsendErr.invalidRawJSON

/-- `ErrJSONEncode`: could not json encode given data. -/
def ErrJSONEncode : JsendErr := JsendErr.jsonEncode

/-- `ErrWrittenAlready`: written already. -/
def ErrWrittenAlready : JsendErr := JsendErr.writtenAlready

/-- The envelope struct `jsonResponse`.  `data` holds the raw bytes of the
`json.RawMessage` field (`""` for nil/empty, which the `omitempty` tag
drops); `message` is `""` when unset (dropped by `omitempty` too). -/
structure jsonResponse where
  status : String
  data : String
  message : String
deriving DecidableEq

/-- The wire form of the envelope: fields in struct declaration order; an
empty `data`/`message` field is omitted entirely by `omitempty` (it is
never emitted as `null`); a non-empty `data` is embedded verbatim. -/
def envelopeChars (r : jsonResponse) : List Char :=
  '\x7b' :: (encodeJString "status" ++ ':' :: encodeJString r.status)
    ++ (if r.data = "" then [] else ',' :: (encodeJString "data" ++ ':' :: r.data.data))
    ++ (if r.message = "" then [] else
          ',' :: (encodeJString "message" ++ ':' :: encodeJString r.message))
    ++ ['\x7d']

/-- Marshaling of the `jsonResponse` struct by `json.Marshal` (model): a
non-empty `data` is validated as raw JSON (marshal fails on invalid raw
bytes); otherwise the wire form `envelopeChars` is produced. -/
def marshalJsonResponse (r : jsonResponse) : Option (List Char) :=
  if r.data ≠ "" ∧ isValidJSON r.data = false then none
  else some (envelopeChars r)

/-- `writeJSONResponse`: marshal the envelope and write it to the sink;
a marshal failure yields `(0, ErrInvalidRawJSON)` and leaves the sink
untouched. -/
def writeJSONResponse (w : ResponseWriter) (r : jsonResponse) :
    ResponseWriter × Nat × Option JsendErr :=
  match marshalJsonResponse r with
  | none => (w, 0, some ErrInvalidRawJSON)
  | some cs =>
    let out := w.write (String.mk cs)
    (out.1, out.2, none)

/-! ### Payload values for the direct encoders

A Go `interface\x7b\x7d` payload is either a value the codec can marshal
(modelled by its JSON value) or a value `json.Marshal` rejects, such as a
map with an unsupported key type. -/

/-- A Go payload value as the codec sees it. -/
inductive GoValue where
  | jsonable : Jval → GoValue
  | unserializable : GoValue

/-- `json.Marshal` on a payload value (model). -/
def marshalGoValue : GoValue → Option String
  | .jsonable v => some v.serialize
  | .unserializable => none

/-- The tail of the package-level `write` function after the payload has
been marshaled (or skipped when nil): fill the envelope, set the default
Content-Type only when absent, send the status code, then write the
envelope.  `dataJSON = ""` means a nil payload (no `data` field); the Go
code sets `res.Message` only when `error` is non-empty, which coincides
with storing `error` directly since the zero value is `""`. -/
def writeRest (w : ResponseWriter) (status : String) (statusCode : Int)
    (dataJSON : String) (error : String) : ResponseWriter × Nat × Option JsendErr :=
  let res : jsonResponse := { status := status, data := dataJSON, message := error }
  let w1 := if w.hget "Content-Type" = "" then w.hset "Content-Type" "application/json" else w
  let w2 := w1.writeHeader statusCode
  writeJSONResponse w2 res

/-- The package-level `write` function: marshal the payload first (failing
with `ErrJSONEncode` before any side effect), then proceed. -/
def write (w : ResponseWriter) (status : String) (statusCode : Int)
    (data : Option GoValue) (error : String) : ResponseWriter × Nat × Option JsendErr :=
  match data with
  | none => writeRest w status statusCode "" error
  | some d =>
    match marshalGoValue d with
    | none => (w, 0, some ErrJSONEncode)
    | some dataJSON => writeRest w status statusCode dataJSON error

/-- `Success`: json encode and write data with "success" status. -/
def Success (w : ResponseWriter) (data : Option GoValue) (code : Int) :
    ResponseWriter × Nat × Option JsendErr :=
  write w StatusSuccess code data ""

/-- `Error`: write an error string with "error" status. -/
def Error (w : ResponseWriter) (error : String) (code : Int) :
    ResponseWriter × Nat × Option JsendErr :=
  write w StatusError code none error

/-- `Fail`: json encode and write data with "fail" status. -/
def Fail (w : ResponseWriter) (data : Option GoValue) (code : Int) :
    ResponseWriter × Nat × Option JsendErr :=
  write w StatusFail code data ""

/-! ### The write-once decorator -/

/-- `getStatus`: classify an HTTP status code into a JSend status tag. -/
def getStatus (code : Int) : String :=
  if code ≥ 500 then StatusError
  else if 400 ≤ code ∧ code < 500 then StatusFail
  else StatusSuccess

/-- The decorator state: wrapped sink, recorded status code (zero value `0`
when never set) and the write-once flag.  The mutex only serializes
concurrent calls and has no sequential effect, so it is not part of the
state. -/
structure response where
  rw : ResponseWriter
  code : Int
  written : Bool
deriving DecidableEq

/-- `Wrap`: set the default Content-Type on the sink when absent and return
a fresh decorator. -/
def Wrap (rw : ResponseWriter) : response :=
  let rw1 := if rw.hget "Content-Type" = "" then rw.hset "Content-Type" "application/json" else rw
  { rw := rw1, code := 0, written := false }

/-- Decorator `Header`: the underlying sink's headers. -/
def response.Header (r : response) : List (String × String) :=
  r.rw.header

/-- Decorator `WriteHeader`: record the code and forward it immediately. -/
def response.WriteHeader (r : response) (code : Int) : response :=
  { r with code := code, rw := r.rw.writeHeader code }

/-- Decorator `Write`: reject when already written; otherwise consume the
single-write budget (Go sets `r.written = true` before any I/O), classify
the recorded code, fill the envelope (`message` for error, raw `data`
otherwise) and delegate to `writeJSONResponse`. -/
def response.Write (r : response) (data : String) : response × Nat × Option JsendErr :=
  if r.written then (r, 0, some ErrWrittenAlready)
  else
    let st := getStatus r.code
    let jr : jsonResponse :=
      if st = StatusError then { status := st, data := "", message := data }
      else { status := st, data := data, message := "" }
    let out := writeJSONResponse r.rw jr
    ({ r with written := true, rw := out.1 }, out.2.1, out.2.2)

/-- The header evolution C6 describes: the Content-Type header is set to
`application/json` exactly when it was absent, it is never overwritten,
and no other header entry is touched (the new header collection is exactly
the old one, possibly with the single conditional update). -/
def ctUpdated (w w2 : ResponseWriter) : Prop :=
  (w.hget "Content-Type" = "" →
    w2.header = headerSet w.header "Content-Type" "application/json") ∧
  (w.hget "Content-Type" ≠ "" → w2.header = w.header)

/-- Whether a payload argument passes the marshal step (a nil payload is
not marshaled at all). -/
def marshals : Option GoValue → Bool
  | none => true
  | some g => (marshalGoValue g).isSome

/-- The amended field-presence invariant of an envelope: a populated `data`
occurs only with a `success`/`fail` status and no `message`; a populated
`message` occurs only with an `error` status and no `data`. -/
def envInvariant (r : jsonResponse) : Prop :=
  (r.data ≠ "" → (r.status = StatusSuccess ∨ r.status = StatusFail) ∧ r.message = "") ∧
  (r.message ≠ "" → r.status = StatusError ∧ r.data = "")

/-- The sink either kept its body (nothing emitted) or received exactly one
envelope satisfying the invariant. -/
def emitsInv (w w2 : ResponseWriter) : Prop :=
  w2.body = w.body ∨
  ∃ r cs, envInvariant r ∧ marshalJsonResponse r = some cs ∧
    w2.body = w.body ++ [String.mk cs]

/-! ### The validator accepts the serializer's output

These lemmas culminate in `isValidJSON_serialize`: every serialized JSON
value passes the syntactic validator (as `json.Marshal` output is valid raw
JSON).  They are used for the round-trip claim about the direct
encoders. -/

/-- A decimal digit is one of the ten digit characters. -/
theorem isDig_elim (c : Char) (h : isDig c = true) :
    c = '0' ∨ c = '1' ∨ c = '2' ∨ c = '3' ∨ c = '4' ∨
    c = '5' ∨ c = '6' ∨ c = '7' ∨ c = '8' ∨ c = '9' := by
  simp [isDig] at h
  tauto

/-- `digitChar` produces digits. -/
theorem digitChar_isDig (d : Nat) : isDig (digitChar d) = true := by
  unfold digitChar
  split <;> decide

/-- Every character of `natCharsAux` is a digit. -/
theorem natCharsAux_digits (f : Nat) : ∀ (n : Nat), ∀ c ∈ natCharsAux f n, isDig c = true := by
  induction f with
  | zero => intro n c hc; cases hc
  | succ f ih =>
    intro n c hc
    simp only [natCharsAux] at hc
    by_cases h : n < 10
    · rw [if_pos h] at hc
      simp at hc
      subst hc
      exact digitChar_isDig n
    · rw [if_neg h] at hc
      rcases List.mem_append.1 hc with hc | hc
      · exact ih (n / 10) c hc
      · simp at hc
        subst hc
        exact digitChar_isDig (n % 10)

/-- Every character of `natChars` is a digit. -/
theorem natChars_digits (n : Nat) : ∀ c ∈ natChars n, isDig c = true :=
  natCharsAux_digits (n + 1) n

/-- `natChars` is a non-empty list starting with a digit. -/
theorem natChars_cons (n : Nat) :
    ∃ c r, natChars n = c :: r ∧ isDig c = true := by
  unfold natChars natCharsAux
  by_cases h : n < 10
  · exact ⟨digitChar n, [], by rw [if_pos h], digitChar_isDig n⟩
  · rw [if_neg h]
    cases hx : natCharsAux n (n / 10) with
    | nil => exact ⟨digitChar (n % 10), [], by simp, digitChar_isDig (n % 10)⟩
    | cons c r =>
      exact ⟨c, r ++ [digitChar (n % 10)], by simp,
        natCharsAux_digits n (n / 10) c (by rw [hx]; exact List.mem_cons_self c r)⟩

/-- `skipDigits` consumes exactly a block of digits followed by a
non-extending boundary. -/
theorem skipDigits_past (ds : List Char) (rest : List Char)
    (hds : ∀ c ∈ ds, isDig c = true) (h : numDelim rest = true) :
    skipDigits (ds ++ rest) = rest := by
  induction ds with
  | nil =>
    cases rest with
    | nil => rfl
    | cons c r =>
      simp [numDelim] at h
      obtain ⟨⟨⟨hcd, _⟩, _⟩, _⟩ := h
      simp [skipDigits, hcd]
  | cons d ds ih =>
    have hd : isDig d = true := hds d (List.mem_cons_self d ds)
    simp only [List.cons_append, skipDigits, hd, if_true]
    exact ih fun c hc => hds c (List.mem_cons_of_mem d hc)

/-- `skipFrac` is the identity at a value boundary. -/
theorem skipFrac_delim (rest : List Char) (h : numDelim rest = true) :
    skipFrac rest = some rest := by
  cases rest with
  | nil => rfl
  | cons c r =>
    simp [numDelim] at h
    obtain ⟨⟨⟨_, hdot⟩, _⟩, _⟩ := h
    simp [skipFrac, hdot]

/-- `skipExp` is the identity at a value boundary. -/
theorem skipExp_delim (rest : List Char) (h : numDelim rest = true) :
    skipExp rest = some rest := by
  cases rest with
  | nil => rfl
  | cons c r =>
    simp [numDelim] at h
    obtain ⟨⟨⟨_, _⟩, he⟩, hE⟩ := h
    simp [skipExp, he, hE]

/-- `numTail` consumes exactly the digits of a natural number at a value
boundary. -/
theorem numTail_nat (n : Nat) (rest : List Char) (h : numDelim rest = true) :
    numTail (natChars n ++ rest) = some rest := by
  obtain ⟨c, r, hx, hd⟩ := natChars_cons n
  have hr : ∀ c2 ∈ r, isDig c2 = true := fun c2 hc =>
    natChars_digits n c2 (by rw [hx]; exact List.mem_cons_of_mem c hc)
  rw [hx]
  simp only [List.cons_append, numTail, requireDigits, hd, if_true,
    skipDigits_past r rest hr h, skipFrac_delim rest h, skipExp_delim rest h]

/-- The scanner consumes exactly a serialized integer at a value
boundary. -/
theorem skipNumber_int (n : Int) (rest : List Char) (h : numDelim rest = true) :
    skipNumber (intChars n ++ rest) = some rest := by
  unfold intChars
  by_cases hn : n < 0
  · rw [if_pos hn]
    simp only [List.cons_append, skipNumber, if_pos rfl]
    exact numTail_nat n.natAbs rest h
  · rw [if_neg hn]
    obtain ⟨c, r, hx, hd⟩ := natChars_cons n.natAbs
    have hcm : c ≠ '-' := by
      rcases isDig_elim c hd with rfl | rfl | rfl | rfl | rfl | rfl | rfl | rfl | rfl | rfl <;>
        decide
    rw [hx, List.cons_append, skipNumber, if_neg hcm, ← List.cons_append, ← hx]
    exact numTail_nat n.natAbs rest h

/-- `expectChars` accepts its own literal. -/
theorem expectChars_append (ls rest : List Char) :
    expectChars ls (ls ++ rest) = some rest := by
  induction ls with
  | nil => rfl
  | cons c cs ih => simp [expectChars, ih]

/-- `skipWS` does not move past a non-whitespace character. -/
theorem skipWS_not (c : Char) (cs : List Char) (h : isWS c = false) :
    skipWS (c :: cs) = c :: cs := by
  simp [skipWS, h]

/-- The string scanner consumes exactly an escaped string body and its
closing quote. -/
theorem skipStringBody_esc (s : List Char) (rest : List Char) :
    skipStringBody (escChars s ++ '"' :: rest) = some rest := by
  induction s with
  | nil => simp [escChars, skipStringBody]
  | cons c cs ih =>
    by_cases hc : c = '"' ∨ c = '\\'
    · simp only [escChars, if_pos hc, List.cons_append]
      simp only [skipStringBody, skipEscaped]
      simp only [show ¬('\\' : Char) = '"' from by decide, if_false, ite_false,
        if_pos (rfl : ('\\' : Char) = '\\')]
      simpa [skipEscaped] using ih
    · have hc2 : ¬ (c = '"' ∨ c = '\\') := hc
      push_neg at hc
      simp only [escChars, if_neg hc2, List.cons_append]
      simp only [skipStringBody, if_neg hc.1, if_neg hc.2]
      exact ih

/-- The serialization of an integer starts with a character that falls
through every branch of the value dispatch down to the number scanner. -/
theorem intChars_head (n : Int) :
    ∃ c r, intChars n = c :: r ∧ isWS c = false ∧ ¬ c = '"' ∧ ¬ c = '[' ∧
      ¬ c = '\x7b' ∧ ¬ c = 'n' ∧ ¬ c = 't' ∧ ¬ c = 'f' ∧ ¬ c = ']' ∧ ¬ c = '\x7d' := by
  unfold intChars
  by_cases hn : n < 0
  · rw [if_pos hn]
    exact ⟨'-', natChars n.natAbs, rfl, by decide⟩
  · rw [if_neg hn]
    obtain ⟨c, r, hx, hd⟩ := natChars_cons n.natAbs
    refine ⟨c, r, hx, ?_⟩
    rcases isDig_elim c hd with rfl | rfl | rfl | rfl | rfl | rfl | rfl | rfl | rfl | rfl <;>
      decide

/-- The serialization of any value starts with a non-whitespace character
that is not an array or object terminator. -/
theorem serChars_head (v : Jval) :
    ∃ c r, serChars v = c :: r ∧ isWS c = false ∧ ¬ c = ']' ∧ ¬ c = '\x7d' := by
  cases v with
  | num n =>
    obtain ⟨c, r, hx, hw, _, _, _, _, _, _, hbr, hbc⟩ := intChars_head n
    exact ⟨c, r, hx, hw, hbr, hbc⟩
  | bool b => cases b <;> exact ⟨_, _, rfl, by decide⟩
  | _ => exact ⟨_, _, rfl, by decide⟩

/-- What follows an array element is `,` or `]`: a value boundary. -/
theorem numDelim_serListRest (vs : JvalList) (rest : List Char) :
    numDelim (serListRest vs ++ ']' :: rest) = true := by
  cases vs <;> simp [serListRest, numDelim, isDig]

/-- What follows an object member is `,` or the closing brace: a value
boundary. -/
theorem numDelim_serObjRest (vs : JvalObj) (rest : List Char) :
    numDelim (serObjRest vs ++ '\x7d' :: rest) = true := by
  cases vs <;> simp [serObjRest, encodeJString, numDelim, isDig]

mutual

/-- The validator consumes exactly the serialization of a value when the
remainder starts at a value boundary, using `jsize v` recursion depth. -/
theorem skipValue_ser (v : Jval) :
    ∀ (f : Nat) (rest : List Char), numDelim rest = true →
      skipValue (f + jsize v) (serChars v ++ rest) = some rest := by
  intro f rest hrest
  cases v with
  | null =>
    show skipValue (f + 1) (serChars .null ++ rest) = some rest
    simp [skipValue, serChars, skipWS, isWS, expectChars]
  | bool b =>
    cases b with
    | true =>
      show skipValue (f + 1) (serChars (.bool true) ++ rest) = some rest
      simp [skipValue, serChars, skipWS, isWS, expectChars]
    | false =>
      show skipValue (f + 1) (serChars (.bool false) ++ rest) = some rest
      simp [skipValue, serChars, skipWS, isWS, expectChars]
  | num n =>
    show skipValue (f + 1) (intChars n ++ rest) = some rest
    obtain ⟨c, r, hx, hw, h1, h2, h3, h4, h5, h6, _, _⟩ := intChars_head n
    rw [hx, List.cons_append]
    simp only [skipValue]
    rw [skipWS_not c _ hw]
    simp only [if_neg h1, if_neg h2, if_neg h3, if_neg h4, if_neg h5, if_neg h6]
    rw [← List.cons_append, ← hx]
    exact skipNumber_int n rest hrest
  | str s =>
    show skipValue (f + 1) (serChars (.str s) ++ rest) = some rest
    simp only [serChars, encodeJString, List.cons_append, List.append_assoc,
      List.singleton_append]
    simp only [skipValue]
    rw [skipWS_not '"' _ (by decide)]
    simp only [reduceIte, List.nil_append]
    exact skipStringBody_esc s.data rest
  | arr xs =>
    have hf : f + jsize (Jval.arr xs) = (f + 1 + lsize xs) + 1 := by
      simp [jsize]
      omega
    rw [hf]
    simp only [serChars, List.cons_append, List.append_assoc, List.singleton_append]
    simp only [skipValue]
    rw [skipWS_not '[' _ (by decide)]
    simp only [reduceIte, List.nil_append]
    exact skipArrayBody_ser xs f rest
  | obj xs =>
    have hf : f + jsize (Jval.obj xs) = (f + 1 + osize xs) + 1 := by
      simp [jsize]
      omega
    rw [hf]
    simp only [serChars, List.cons_append, List.append_assoc, List.singleton_append]
    simp only [skipValue]
    rw [skipWS_not '\x7b' _ (by decide)]
    simp only [reduceIte, List.nil_append]
    exact skipObjectBody_ser xs f rest

/-- The validator consumes exactly a serialized array's elements and the
closing bracket. -/
theorem skipArrayBody_ser (xs : JvalList) :
    ∀ (f : Nat) (rest : List Char),
      skipArrayBody (f + 1 + lsize xs) (serList xs ++ ']' :: rest) = some rest := by
  intro f rest
  cases xs with
  | nil =>
    show skipArrayBody (f + 1) (']' :: rest) = some rest
    simp [skipArrayBody, skipWS, isWS]
  | cons v vs =>
    have hf : f + 1 + lsize (JvalList.cons v vs) = ((f + 1 + lsize vs) + jsize v) + 1 := by
      simp [lsize]
      omega
    rw [hf]
    obtain ⟨c, r, hx, hw, hbr, _⟩ := serChars_head v
    simp only [serList, List.append_assoc]
    rw [hx, List.cons_append]
    simp only [skipArrayBody]
    rw [skipWS_not c _ hw]
    simp only [if_neg hbr]
    rw [← List.cons_append, ← hx,
      skipValue_ser v (f + 1 + lsize vs) (serListRest vs ++ ']' :: rest)
        (numDelim_serListRest vs rest)]
    have hf2 : (f + 1 + lsize vs) + jsize v = (f + jsize v) + 1 + lsize vs := by omega
    rw [hf2]
    exact skipArrayRest_ser vs (f + jsize v) rest

/-- The validator consumes exactly the comma-separated tail of a serialized
array and the closing bracket. -/
theorem skipArrayRest_ser (xs : JvalList) :
    ∀ (f : Nat) (rest : List Char),
      skipArrayRest (f + 1 + lsize xs) (serListRest xs ++ ']' :: rest) = some rest := by
  intro f rest
  cases xs with
  | nil =>
    show skipArrayRest (f + 1) (']' :: rest) = some rest
    simp [skipArrayRest, skipWS, isWS]
  | cons v vs =>
    have hf : f + 1 + lsize (JvalList.cons v vs) = ((f + 1 + lsize vs) + jsize v) + 1 := by
      simp [lsize]
      omega
    rw [hf]
    simp only [serListRest, List.cons_append, List.append_assoc]
    simp only [skipArrayRest]
    rw [skipWS_not ',' _ (by decide)]
    simp only [reduceIte, List.nil_append]
    rw [skipValue_ser v (f + 1 + lsize vs) (serListRest vs ++ ']' :: rest)
      (numDelim_serListRest vs rest)]
    have hf2 : (f + 1 + lsize vs) + jsize v = (f + jsize v) + 1 + lsize vs := by omega
    rw [hf2]
    exact skipArrayRest_ser vs (f + jsize v) rest

/-- The validator consumes exactly a serialized object's members and the
closing brace. -/
theorem skipObjectBody_ser (xs : JvalObj) :
    ∀ (f : Nat) (rest : List Char),
      skipObjectBody (f + 1 + osize xs) (serObj xs ++ '\x7d' :: rest) = some rest := by
  intro f rest
  cases xs with
  | onil =>
    show skipObjectBody (f + 1) ('\x7d' :: rest) = some rest
    simp [skipObjectBody, skipWS, isWS]
  | ocons k v vs =>
    have hf : f + 1 + osize (JvalObj.ocons k v vs) =
        ((f + 1 + osize vs + jsize v) + 1) + 1 := by
      simp [osize]
      omega
    rw [hf]
    simp only [serObj, encodeJString, List.cons_append, List.append_assoc,
      List.singleton_append]
    simp only [skipObjectBody]
    rw [skipWS_not '"' _ (by decide)]
    simp only [reduceIte, List.nil_append]
    rw [skipStringBody_esc k.data (':' :: (serChars v ++ (serObjRest vs ++ '\x7d' :: rest)))]
    simp only [skipMember]
    rw [skipWS_not ':' _ (by decide)]
    simp only [reduceIte, List.nil_append]
    rw [skipValue_ser v (f + 1 + osize vs) (serObjRest vs ++ '\x7d' :: rest)
      (numDelim_serObjRest vs rest)]
    have hf2 : f + 1 + osize vs + jsize v = (f + jsize v) + 1 + osize vs := by omega
    rw [hf2]
    exact skipObjectRest_ser vs (f + jsize v) rest

/-- The validator consumes exactly the comma-separated tail of a serialized
object and the closing brace. -/
theorem skipObjectRest_ser (xs : JvalObj) :
    ∀ (f : Nat) (rest : List Char),
      skipObjectRest (f + 1 + osize xs) (serObjRest xs ++ '\x7d' :: rest) = some rest := by
  intro f rest
  cases xs with
  | onil =>
    show skipObjectRest (f + 1) ('\x7d' :: rest) = some rest
    simp [skipObjectRest, skipWS, isWS]
  | ocons k v vs =>
    have hf : f + 1 + osize (JvalObj.ocons k v vs) =
        ((f + 1 + osize vs + jsize v) + 1) + 1 := by
      simp [osize]
      omega
    rw [hf]
    simp only [serObjRest, encodeJString, List.cons_append, List.append_assoc,
      List.singleton_append]
    simp only [skipObjectRest]
    rw [skipWS_not ',' _ (by decide)]
    simp only [reduceIte, List.nil_append]
    rw [skipWS_not '"' _ (by decide)]
    simp only [reduceIte, List.nil_append]
    rw [skipStringBody_esc k.data (':' :: (serChars v ++ (serObjRest vs ++ '\x7d' :: rest)))]
    simp only [skipMember]
    rw [skipWS_not ':' _ (by decide)]
    simp only [reduceIte, List.nil_append]
    rw [skipValue_ser v (f + 1 + osize vs) (serObjRest vs ++ '\x7d' :: rest)
      (numDelim_serObjRest vs rest)]
    have hf2 : f + 1 + osize vs + jsize v = (f + jsize v) + 1 + osize vs := by omega
    rw [hf2]
    exact skipObjectRest_ser vs (f + jsize v) rest

end

mutual

/-- The recursion depth the validator needs is dominated by twice the
serialized length. -/
theorem jsize_le (v : Jval) : jsize v ≤ 2 * (serChars v).length := by
  cases v with
  | null => simp [jsize, serChars]
  | bool b => cases b <;> simp [jsize, serChars]
  | num n =>
    obtain ⟨c, r, hx, _⟩ := intChars_head n
    simp [jsize, serChars, hx]
    omega
  | str s =>
    simp [jsize, serChars, encodeJString]
    omega
  | arr xs =>
    have h1 := lsize_le xs
    simp only [jsize, serChars, List.length_cons, List.length_append] at *
    omega
  | obj xs =>
    have h1 := osize_le xs
    simp only [jsize, serChars, List.length_cons, List.length_append] at *
    omega

/-- Depth bound inside a serialized array (first element onwards). -/
theorem lsize_le (xs : JvalList) : lsize xs ≤ 2 * (serList xs).length + 1 := by
  cases xs with
  | nil => simp [lsize]
  | cons v vs =>
    have h1 := jsize_le v
    have h2 := lsizeRest_le vs
    simp only [lsize, serList, List.length_append] at *
    omega

/-- Depth bound for the comma-separated tail of a serialized array. -/
theorem lsizeRest_le (xs : JvalList) : lsize xs ≤ 2 * (serListRest xs).length := by
  cases xs with
  | nil => simp [lsize, serListRest]
  | cons v vs =>
    have h1 := jsize_le v
    have h2 := lsizeRest_le vs
    simp only [lsize, serListRest, List.length_cons, List.length_append] at *
    omega

/-- Depth bound inside a serialized object (first member onwards). -/
theorem osize_le (xs : JvalObj) : osize xs ≤ 2 * (serObj xs).length + 1 := by
  cases xs with
  | onil => simp [osize]
  | ocons k v vs =>
    have h1 := jsize_le v
    have h2 := osizeRest_le vs
    simp only [osize, serObj, List.length_cons, List.length_append] at *
    omega

/-- Depth bound for the comma-separated tail of a serialized object. -/
theorem osizeRest_le (xs : JvalObj) : osize xs ≤ 2 * (serObjRest xs).length := by
  cases xs with
  | onil => simp [osize, serObjRest]
  | ocons k v vs =>
    have h1 := jsize_le v
    have h2 := osizeRest_le vs
    simp only [osize, serObjRest, List.length_cons, List.length_append] at *
    omega

end

/-- Serializations are never empty. -/
theorem serChars_ne_nil (v : Jval) : serChars v ≠ [] := by
  obtain ⟨c, r, hx, _⟩ := serChars_head v
  simp [hx]

/-- Serializations are never the empty string. -/
theorem serialize_ne_empty (v : Jval) : v.serialize ≠ "" := by
  unfold Jval.serialize
  intro h
  apply serChars_ne_nil v
  have h2 : (String.mk (serChars v)).data = ("" : String).data := by rw [h]
  simpa using h2

/-- Every serialized JSON value passes the syntactic validator: the model
of the fact that `json.Marshal` output is valid raw JSON. -/
theorem isValidJSON_serialize (v : Jval) : isValidJSON v.serialize = true := by
  show (match skipValue (2 * (serChars v).length + 2) (serChars v) with
    | none => false
    | some r => (skipWS r).isEmpty) = true
  have hb : jsize v ≤ 2 * (serChars v).length + 2 := le_trans (jsize_le v) (by omega)
  have hf : 2 * (serChars v).length + 2 =
      (2 * (serChars v).length + 2 - jsize v) + jsize v := by omega
  rw [hf]
  have hs := skipValue_ser v (2 * (serChars v).length + 2 - jsize v) [] rfl
  rw [List.append_nil] at hs
  rw [hs]
  rfl

/-! ### Basic lemmas about the operations -/

/-- The three status tags are pairwise distinct strings. -/
theorem status_distinct :
    StatusError ≠ StatusFail ∧ StatusError ≠ StatusSuccess ∧ StatusFail ≠ StatusSuccess := by
  refine ⟨?_, ?_, ?_⟩ <;> decide

/-- `getStatus` always returns one of the three tags. -/
theorem getStatus_cases (c : Int) :
    getStatus c = StatusError ∨ getStatus c = StatusFail ∨ getStatus c = StatusSuccess := by
  unfold getStatus
  split_ifs <;> simp

/-- `writeJSONResponse` never touches the header. -/
theorem writeJSONResponse_header (w : ResponseWriter) (r : jsonResponse) :
    (writeJSONResponse w r).1.header = w.header := by
  unfold writeJSONResponse
  cases marshalJsonResponse r <;> rfl

/-- `writeJSONResponse` never touches the recorded status codes. -/
theorem writeJSONResponse_codes (w : ResponseWriter) (r : jsonResponse) :
    (writeJSONResponse w r).1.codes = w.codes := by
  unfold writeJSONResponse
  cases marshalJsonResponse r <;> rfl

/-- `writeJSONResponse` either leaves the body alone (reporting the marshal
failure) or appends exactly the marshaled envelope. -/
theorem writeJSONResponse_body (w : ResponseWriter) (r : jsonResponse) :
    (marshalJsonResponse r = none ∧ writeJSONResponse w r = (w, 0, some ErrInvalidRawJSON)) ∨
    ∃ cs, marshalJsonResponse r = some cs ∧
      writeJSONResponse w r =
        ({ w with body := w.body ++ [String.mk cs] }, (String.mk cs).utf8ByteSize, none) := by
  unfold writeJSONResponse
  cases h : marshalJsonResponse r with
  | none => exact Or.inl ⟨rfl, rfl⟩
  | some cs => exact Or.inr ⟨cs, rfl, rfl⟩

/-- A `Write` on an already-written decorator is rejected unchanged. -/
theorem write_rejected (r : response) (d : String) (h : r.written = true) :
    r.Write d = (r, 0, some ErrWrittenAlready) := by
  unfold response.Write
  rw [h]
  simp

/-- A first `Write` on a fresh decorator runs the non-rejecting branch. -/
theorem response_Write_fresh (r : response) (d : String) (h : r.written = false) :
    r.Write d =
      (let st := getStatus r.code
       let jr : jsonResponse :=
         if st = StatusError then { status := st, data := "", message := d }
         else { status := st, data := d, message := "" }
       let out := writeJSONResponse r.rw jr
       ({ r with written := true, rw := out.1 }, out.2.1, out.2.2)) := by
  unfold response.Write
  rw [h]
  simp

/-! ### Claim theorems -/

/-- Claim C1: for every HTTP status code `c`, the classification used by
the decorator's `Write` maps `c` to `"error"` iff `c ≥ 500`, to `"fail"`
iff `400 ≤ c < 500`, and to `"success"` in every other case (including an
unset/default code of `0` and negative, 1xx, 2xx, 3xx codes). -/
theorem c1_getStatus_classification (c : Int) :
    (getStatus c = StatusError ↔ 500 ≤ c) ∧
    (getStatus c = StatusFail ↔ 400 ≤ c ∧ c < 500) ∧
    (¬ 500 ≤ c ∧ ¬ (400 ≤ c ∧ c < 500) → getStatus c = StatusSuccess) := by
  obtain ⟨hef, hes, hfs⟩ := status_distinct
  unfold getStatus
  split_ifs with h1 h2
  · exact ⟨iff_of_true rfl h1, iff_of_false hef (by omega),
      fun h => absurd h1 (by omega)⟩
  · exact ⟨iff_of_false (fun h => hef h.symm) (by omega), iff_of_true rfl h2,
      fun h => absurd h2 (by omega)⟩
  · exact ⟨iff_of_false (fun h => hes h.symm) (by omega),
      iff_of_false (fun h => hfs h.symm) (by omega), fun _ => rfl⟩

/-- Claim C2: once a decorator's first `Write` has set the written flag,
every subsequent `Write`, regardless of its input, returns
`(0, ErrWrittenAlready)` and leaves the decorator — in particular the
underlying sink and its body — exactly as the first write left it. -/
theorem c2_write_once :
    (∀ (r : response) (d : String), r.written = false → ((r.Write d).1).written = true) ∧
    (∀ (r : response) (d : String), r.written = true →
      r.Write d = (r, 0, some ErrWrittenAlready)) := by
  constructor
  · intro r d h
    rw [response_Write_fresh r d h]
  · intro r d h
    exact write_rejected r d h

/-- Witness for C2 at a concrete input (the spec's scenario 5). -/
theorem c2_write_once_witness :
    (Wrap emptyRW).written = false ∧
    (((Wrap emptyRW).Write "\"hello\"").1).written = true ∧
    (((Wrap emptyRW).Write "\"hello\"").1).Write "\"world\"" =
      (((Wrap emptyRW).Write "\"hello\"").1, 0, some ErrWrittenAlready) :=
  ⟨by decide, c2_write_once.1 (Wrap emptyRW) "\"hello\"" (by decide),
    c2_write_once.2 ((Wrap emptyRW).Write "\"hello\"").1 "\"world\""
      (c2_write_once.1 (Wrap emptyRW) "\"hello\"" (by decide))⟩

/-- Claim C4: the written flag is consumed by the first `Write` call no
matter how that call turns out (it is set before any I/O is attempted), so
every later `Write` on the same decorator returns `(0, ErrWrittenAlready)`
and changes nothing. -/
theorem c4_failed_write_consumes_budget (r : response) (d e : String)
    (h : r.written = false) :
    ((r.Write d).1).written = true ∧
    ((r.Write d).1).Write e = ((r.Write d).1, 0, some ErrWrittenAlready) := by
  have h1 : ((r.Write d).1).written = true := by rw [response_Write_fresh r d h]
  exact ⟨h1, write_rejected _ e h1⟩

/-- Witness for C4: the first `Write` fails with `ErrInvalidRawJSON`, yet
the budget is consumed and a retry is rejected. -/
theorem c4_failed_write_consumes_budget_witness :
    (Wrap emptyRW).written = false ∧
    ((Wrap emptyRW).Write "some invalid json").2 = (0, some ErrInvalidRawJSON) ∧
    ((((Wrap emptyRW).Write "some invalid json").1).written = true ∧
      (((Wrap emptyRW).Write "some invalid json").1).Write "\x7b\x7d" =
        (((Wrap emptyRW).Write "some invalid json").1, 0, some ErrWrittenAlready)) :=
  ⟨by decide, by decide,
    c4_failed_write_consumes_budget (Wrap emptyRW) "some invalid json" "\x7b\x7d" (by decide)⟩

/-- Claim C5: for every sink and every payload the codec cannot serialize,
the direct encoders `Success` and `Fail` return `(0, ErrJSONEncode)` and
leave the sink completely untouched: no body bytes, no status code, no
header mutation. -/
theorem c5_encode_failure_writes_nothing (w : ResponseWriter) (g : GoValue) (code : Int)
    (h : marshalGoValue g = none) :
    Success w (some g) code = (w, 0, some ErrJSONEncode) ∧
    Fail w (some g) code = (w, 0, some ErrJSONEncode) := by
  constructor <;> simp [Success, Fail, write, h]

/-- Witness for C5 at a concrete unserializable payload. -/
theorem c5_encode_failure_writes_nothing_witness :
    marshalGoValue GoValue.unserializable = none ∧
    (Success emptyRW (some GoValue.unserializable) 200 = (emptyRW, 0, some ErrJSONEncode) ∧
      Fail emptyRW (some GoValue.unserializable) 200 = (emptyRW, 0, some ErrJSONEncode)) :=
  ⟨rfl, c5_encode_failure_writes_nothing emptyRW GoValue.unserializable 200 rfl⟩

/-- Marshaling an envelope whose `data` field is empty never fails. -/
theorem marshalJsonResponse_no_data (st msg : String) :
    marshalJsonResponse { status := st, data := "", message := msg } =
      some (envelopeChars { status := st, data := "", message := msg }) := by
  unfold marshalJsonResponse
  rw [if_neg]
  intro hc
  exact hc.1 rfl

/-- Claim C3 fails as stated: on a fresh success-classified decorator, a
`Write` of the empty byte string — which is not syntactically valid JSON —
does not return `(0, ErrInvalidRawJSON)`; it succeeds and writes a
20-byte envelope to the sink. -/
theorem c3_counterexample :
    isValidJSON "" = false ∧
    (Wrap emptyRW).written = false ∧
    getStatus (Wrap emptyRW).code = StatusSuccess ∧
    ((Wrap emptyRW).Write "").2 = (20, none) ∧
    ((Wrap emptyRW).Write "").1.rw.body = ["\x7b\"status\":\"success\"\x7d"] :=
  ⟨by decide, by decide, by decide, by decide, by decide⟩

/-- Claim C3 (amended): for every fresh decorator whose recorded status
code classifies as `"success"` or `"fail"`, a `Write` call whose raw bytes
are non-empty and not syntactically valid JSON returns
`(0, ErrInvalidRawJSON)` and writes zero bytes to the underlying sink. -/
theorem c3_invalid_raw_json (r : response) (d : String) (h : r.written = false)
    (hst : getStatus r.code = StatusSuccess ∨ getStatus r.code = StatusFail)
    (hd : d ≠ "") (hv : isValidJSON d = false) :
    r.Write d = ({ r with written := true }, 0, some ErrInvalidRawJSON) := by
  have hne : getStatus r.code ≠ StatusError := by
    rcases hst with h1 | h1 <;> rw [h1] <;> decide
  rw [response_Write_fresh r d h]
  simp only [if_neg hne]
  have hm : marshalJsonResponse { status := getStatus r.code, data := d, message := "" }
      = none := by
    unfold marshalJsonResponse
    rw [if_pos ⟨hd, hv⟩]
  simp [writeJSONResponse, hm]

/-- Witness for the amended C3 at the spec's scenario 4. -/
theorem c3_invalid_raw_json_witness :
    (Wrap emptyRW).written = false ∧
    getStatus (Wrap emptyRW).code = StatusSuccess ∧
    ("some invalid json" ≠ "" ∧ isValidJSON "some invalid json" = false) ∧
    (Wrap emptyRW).Write "some invalid json" =
      ({ Wrap emptyRW with written := true }, 0, some ErrInvalidRawJSON) :=
  ⟨by decide, by decide, ⟨by decide, by decide⟩,
    c3_invalid_raw_json (Wrap emptyRW) "some invalid json" (by decide)
      (Or.inl (by decide)) (by decide) (by decide)⟩

/-- Claim C9: on a fresh decorator classified as `"error"` (code ≥ 500),
`Write` treats the raw bytes as the literal message text with no JSON
validity requirement: the call always succeeds and emits the envelope
whose `message` field carries exactly those bytes. -/
theorem c9_error_write_message (r : response) (d : String) (h : r.written = false)
    (hst : getStatus r.code = StatusError) :
    r.Write d =
      ({ r with
          written := true
          rw := { r.rw with body := r.rw.body ++
            [String.mk (envelopeChars { status := StatusError, data := "", message := d })] } },
        (String.mk (envelopeChars { status := StatusError, data := "", message := d })).utf8ByteSize,
        none) := by
  rw [response_Write_fresh r d h, hst]
  simp only [if_pos rfl]
  simp [writeJSONResponse, marshalJsonResponse_no_data, ResponseWriter.write]

/-- Witness for C9 at the spec's scenario 3: `SetStatusCode(503)` then
`Write("something wrong")` produces
`\x7b"status":"error","message":"something wrong"\x7d`. -/
theorem c9_error_write_message_witness :
    ((Wrap emptyRW).WriteHeader 503).written = false ∧
    getStatus ((Wrap emptyRW).WriteHeader 503).code = StatusError ∧
    ((Wrap emptyRW).WriteHeader 503).Write "something wrong" =
      ({ (Wrap emptyRW).WriteHeader 503 with
          written := true
          rw := { ((Wrap emptyRW).WriteHeader 503).rw with
            body := ((Wrap emptyRW).WriteHeader 503).rw.body ++
              [String.mk (envelopeChars
                { status := StatusError, data := "", message := "something wrong" })] } },
        (String.mk (envelopeChars
          { status := StatusError, data := "", message := "something wrong" })).utf8ByteSize,
        none) ∧
    String.mk (envelopeChars { status := StatusError, data := "", message := "something wrong" })
      = "\x7b\"status\":\"error\",\"message\":\"something wrong\"\x7d" :=
  ⟨by decide, by decide,
    c9_error_write_message ((Wrap emptyRW).WriteHeader 503) "something wrong"
      (by decide) (by decide),
    by decide⟩

/-- Claim C10: on a fresh decorator classified as `"success"` or `"fail"`,
a `Write` of the empty byte string does not fail with `ErrInvalidRawJSON`:
it succeeds, and the emitted envelope omits the `data` field entirely
(the empty raw value is dropped by `omitempty` before JSON validity is
checked). -/
theorem c10_empty_write_succeeds (r : response) (h : r.written = false)
    (hst : getStatus r.code = StatusSuccess ∨ getStatus r.code = StatusFail) :
    r.Write "" =
      ({ r with
          written := true
          rw := { r.rw with body := r.rw.body ++
            [String.mk (envelopeChars
              { status := getStatus r.code, data := "", message := "" })] } },
        (String.mk (envelopeChars
          { status := getStatus r.code, data := "", message := "" })).utf8ByteSize,
        none) := by
  have hne : getStatus r.code ≠ StatusError := by
    rcases hst with h1 | h1 <;> rw [h1] <;> decide
  rw [response_Write_fresh r "" h]
  simp only [if_neg hne]
  simp [writeJSONResponse, marshalJsonResponse_no_data, ResponseWriter.write]

/-- Witness for C10: a fresh wrapped sink (default code 0, success) accepts
an empty write and emits `\x7b"status":"success"\x7d`. -/
theorem c10_empty_write_succeeds_witness :
    (Wrap emptyRW).written = false ∧
    getStatus (Wrap emptyRW).code = StatusSuccess ∧
    (Wrap emptyRW).Write "" =
      ({ Wrap emptyRW with
          written := true
          rw := { (Wrap emptyRW).rw with body := (Wrap emptyRW).rw.body ++
            [String.mk (envelopeChars
              { status := getStatus (Wrap emptyRW).code, data := "", message := "" })] } },
        (String.mk (envelopeChars
          { status := getStatus (Wrap emptyRW).code, data := "", message := "" })).utf8ByteSize,
        none) ∧
    String.mk (envelopeChars
        { status := getStatus (Wrap emptyRW).code, data := "", message := "" })
      = "\x7b\"status\":\"success\"\x7d" :=
  ⟨by decide, by decide,
    c10_empty_write_succeeds (Wrap emptyRW) (by decide) (Or.inl (by decide)),
    by decide⟩

/-! ### Content-Type handling (C6) -/

/-- The header produced by the common tail of `write`. -/
theorem writeRest_header (w : ResponseWriter) (st : String) (code : Int) (dj err : String) :
    (writeRest w st code dj err).1.header =
      (if w.hget "Content-Type" = "" then
        headerSet w.header "Content-Type" "application/json" else w.header) := by
  simp only [writeRest]
  rw [writeJSONResponse_header]
  split_ifs <;> rfl

/-- The common tail of `write` realizes the C6 header evolution. -/
theorem ctUpdated_writeRest (w : ResponseWriter) (st : String) (code : Int) (dj err : String) :
    ctUpdated w (writeRest w st code dj err).1 := by
  constructor <;> intro h <;> rw [writeRest_header] <;> simp [h]

/-- Claim C6 fails as stated: `Success` on a sink with no Content-Type
header, given a payload the codec rejects, returns before the header
mutation, so the Content-Type header is NOT set to `application/json`. -/
theorem c6_counterexample :
    emptyRW.hget "Content-Type" = "" ∧
    (Success emptyRW (some GoValue.unserializable) 200).1.header = [] :=
  ⟨by decide, by decide⟩

/-- Claim C6 (amended): `Wrap` and the direct encoders set the Content-Type
header to `application/json` when the sink has none and leave it unchanged
when the caller pre-set one, touching no other header — for `Success` and
`Fail` provided the payload marshals (an encode failure returns before any
header mutation, per C5); `Error` and `Wrap` unconditionally. -/
theorem c6_content_type :
    (∀ (w : ResponseWriter) (d : Option GoValue) (code : Int),
      marshals d = true → ctUpdated w (Success w d code).1) ∧
    (∀ (w : ResponseWriter) (d : Option GoValue) (code : Int),
      marshals d = true → ctUpdated w (Fail w d code).1) ∧
    (∀ (w : ResponseWriter) (m : String) (code : Int), ctUpdated w (Error w m code).1) ∧
    (∀ w : ResponseWriter, ctUpdated w (Wrap w).rw) := by
  have hwrap : ∀ w : ResponseWriter, ctUpdated w (Wrap w).rw := by
    intro w
    constructor <;> intro h <;> simp [Wrap, ResponseWriter.hset, h]
  have hdata : ∀ (w : ResponseWriter) (st : String) (d : Option GoValue) (code : Int),
      marshals d = true → ctUpdated w (write w st code d "").1 := by
    intro w st d code hm
    match d with
    | none => exact ctUpdated_writeRest w st code "" ""
    | some g =>
      match hg : marshalGoValue g with
      | none => rw [marshals, hg] at hm; cases hm
      | some dj =>
        simp only [write, hg]
        exact ctUpdated_writeRest w st code dj ""
  exact ⟨fun w d code hm => hdata w StatusSuccess d code hm,
    fun w d code hm => hdata w StatusFail d code hm,
    fun w m code => ctUpdated_writeRest w StatusError code "" m,
    hwrap⟩

/-- Witness for the amended C6: a marshalable payload on a fresh sink gets
the default Content-Type. -/
theorem c6_content_type_witness :
    marshals (some (GoValue.jsonable (Jval.str "x"))) = true ∧
    emptyRW.hget "Content-Type" = "" ∧
    (Success emptyRW (some (GoValue.jsonable (Jval.str "x"))) 200).1.header =
      [("Content-Type", "application/json")] :=
  ⟨by decide, by decide,
    ((c6_content_type.1 emptyRW (some (GoValue.jsonable (Jval.str "x"))) 200
      (by decide)).1 (by decide)).trans (by decide)⟩

/-! ### The envelope field-presence invariant (C7) -/

/-- The common tail of `write` emits only the envelope it was given. -/
theorem emitsInv_writeRest (w : ResponseWriter) (st : String) (code : Int) (dj err : String)
    (hinv : envInvariant { status := st, data := dj, message := err }) :
    emitsInv w (writeRest w st code dj err).1 := by
  have hb : (((if w.hget "Content-Type" = "" then
      w.hset "Content-Type" "application/json" else w).writeHeader code)).body = w.body := by
    split_ifs <;> rfl
  simp only [writeRest]
  rcases writeJSONResponse_body
      ((if w.hget "Content-Type" = "" then
        w.hset "Content-Type" "application/json" else w).writeHeader code)
      { status := st, data := dj, message := err } with ⟨_, he⟩ | ⟨cs, hm, he⟩
  · left
    rw [he, hb]
  · right
    exact ⟨_, cs, hinv, hm, by rw [he]; simp [hb]⟩

/-- Claim C7 fails as stated: `Fail` with a nil payload emits an envelope
with BOTH `data` and `message` absent whose status is `"fail"`, not a
payload-less success. -/
theorem c7_counterexample :
    (Fail emptyRW none 400).1.body = ["\x7b\"status\":\"fail\"\x7d"] ∧
    (Fail emptyRW none 400).2.2 = none :=
  ⟨by decide, by decide⟩

/-- Claim C7 (amended): every envelope emitted by the public operations
satisfies the field-presence invariant — `data` populated only for
`success`/`fail` with no `message`, `message` populated only for `error`
with no `data`; both fields may be absent (for a payload-less success or
fail, or an empty-message error); an absent `data` is omitted from the
wire form entirely, never emitted as null. -/
theorem c7_envelope_invariant :
    (∀ (w : ResponseWriter) (d : Option GoValue) (code : Int),
      emitsInv w (Success w d code).1) ∧
    (∀ (w : ResponseWriter) (d : Option GoValue) (code : Int),
      emitsInv w (Fail w d code).1) ∧
    (∀ (w : ResponseWriter) (m : String) (code : Int), emitsInv w (Error w m code).1) ∧
    (∀ (r : response) (d : String), emitsInv r.rw ((r.Write d).1).rw) ∧
    (∀ st msg : String, envelopeChars { status := st, data := "", message := msg } =
      '\x7b' :: (encodeJString "status" ++ ':' :: encodeJString st) ++
        (if msg = "" then [] else
          ',' :: (encodeJString "message" ++ ':' :: encodeJString msg)) ++ ['\x7d']) := by
  have hdata : ∀ (w : ResponseWriter) (st : String) (d : Option GoValue) (code : Int),
      (st = StatusSuccess ∨ st = StatusFail) → emitsInv w (write w st code d "").1 := by
    intro w st d code hst
    match d with
    | none =>
      refine emitsInv_writeRest w st code "" "" ⟨fun hd => absurd rfl hd, fun hm => absurd rfl hm⟩
    | some g =>
      match hg : marshalGoValue g with
      | none =>
        simp only [write, hg]
        exact Or.inl rfl
      | some dj =>
        simp only [write, hg]
        exact emitsInv_writeRest w st code dj "" ⟨fun _ => ⟨hst, rfl⟩, fun hm => absurd rfl hm⟩
  refine ⟨fun w d code => hdata w StatusSuccess d code (Or.inl rfl),
    fun w d code => hdata w StatusFail d code (Or.inr rfl),
    fun w m code =>
      emitsInv_writeRest w StatusError code "" m ⟨fun hd => absurd rfl hd, fun _ => ⟨rfl, rfl⟩⟩,
    ?_, fun st msg => by simp [envelopeChars]⟩
  intro r d
  cases hw : r.written with
  | true =>
    rw [write_rejected r d hw]
    exact Or.inl rfl
  | false =>
    rw [response_Write_fresh r d hw]
    by_cases he : getStatus r.code = StatusError
    · simp only [if_pos he]
      rcases writeJSONResponse_body r.rw
          { status := getStatus r.code, data := "", message := d } with ⟨_, hres⟩ | ⟨cs, hm, hres⟩
      · left
        rw [hres]
      · right
        exact ⟨_, cs, ⟨fun hd => absurd rfl hd, fun _ => ⟨he, rfl⟩⟩, hm, by rw [hres]⟩
    · simp only [if_neg he]
      have hst : getStatus r.code = StatusSuccess ∨ getStatus r.code = StatusFail := by
        rcases getStatus_cases r.code with h1 | h1 | h1
        · exact absurd h1 he
        · exact Or.inr h1
        · exact Or.inl h1
      rcases writeJSONResponse_body r.rw
          { status := getStatus r.code, data := d, message := "" } with ⟨_, hres⟩ | ⟨cs, hm, hres⟩
      · left
        rw [hres]
      · right
        exact ⟨_, cs, ⟨fun _ => ⟨hst, rfl⟩, fun hm2 => absurd rfl hm2⟩, hm, by rw [hres]⟩

/-! ### The round-trip property of the direct encoders (C8) -/

/-- Marshaling an envelope whose `data` bytes are valid JSON succeeds with
the wire form. -/
theorem marshalJsonResponse_valid (st dj : String) (hv : isValidJSON dj = true) :
    marshalJsonResponse { status := st, data := dj, message := "" } =
      some (envelopeChars { status := st, data := dj, message := "" }) := by
  unfold marshalJsonResponse
  rw [if_neg]
  intro hc
  rw [hv] at hc
  cases hc.2

/-- The common tail of `write`, fed valid JSON data and no message, appends
exactly the wire-form envelope and succeeds. -/
theorem writeRest_valid_body (w : ResponseWriter) (st : String) (code : Int) (dj : String)
    (hv : isValidJSON dj = true) :
    (writeRest w st code dj "").1.body =
      w.body ++ [String.mk (envelopeChars { status := st, data := dj, message := "" })] ∧
    (writeRest w st code dj "").2 =
      ((String.mk (envelopeChars { status := st, data := dj, message := "" })).utf8ByteSize,
        none) := by
  simp only [writeRest, writeJSONResponse, marshalJsonResponse_valid st dj hv,
    ResponseWriter.write]
  constructor
  · split_ifs <;> rfl
  · trivial

/-- The envelope wire form on serialized data is exactly the serialization
of the two-field JSON object `\x7b"status": st, "data": p\x7d`. -/
theorem envelopeChars_eq_serChars (st : String) (p : Jval) :
    envelopeChars { status := st, data := Jval.serialize p, message := "" } =
      serChars (Jval.obj (.ocons "status" (.str st) (.ocons "data" p .onil))) := by
  have hne : Jval.serialize p ≠ "" := serialize_ne_empty p
  have hdata : (Jval.serialize p).data = serChars p := rfl
  simp only [envelopeChars, serChars, serObj, serObjRest, if_neg hne, reduceIte, hdata,
    List.append_nil, List.cons_append, List.append_assoc, List.nil_append]

/-- Claim C8: for every JSON payload `p`, the direct encoders `Success` and
`Fail` write to the sink exactly the serialization of the object
`\x7b"status": s, "data": p\x7d` (`s` the corresponding tag), so decoding
the written bytes with the (trusted) JSON codec yields exactly that object;
the call reports no error. -/
theorem c8_roundtrip (w : ResponseWriter) (p : Jval) (code : Int) :
    ((Success w (some (GoValue.jsonable p)) code).1.body = w.body ++
        [Jval.serialize (Jval.obj (.ocons "status" (.str StatusSuccess)
          (.ocons "data" p .onil)))] ∧
      (Success w (some (GoValue.jsonable p)) code).2.2 = none) ∧
    ((Fail w (some (GoValue.jsonable p)) code).1.body = w.body ++
        [Jval.serialize (Jval.obj (.ocons "status" (.str StatusFail)
          (.ocons "data" p .onil)))] ∧
      (Fail w (some (GoValue.jsonable p)) code).2.2 = none) := by
  constructor
  · simp only [Success, write, marshalGoValue]
    obtain ⟨hb, he⟩ :=
      writeRest_valid_body w StatusSuccess code (Jval.serialize p) (isValidJSON_serialize p)
    refine ⟨?_, by rw [he]⟩
    rw [hb, envelopeChars_eq_serChars]
    rfl
  · simp only [Fail, write, marshalGoValue]
    obtain ⟨hb, he⟩ :=
      writeRest_valid_body w StatusFail code (Jval.serialize p) (isValidJSON_serialize p)
    refine ⟨?_, by rw [he]⟩
    rw [hb, envelopeChars_eq_serChars]
    rfl

end Jsend
